import Mathlib

/-! # mini_shell (`src/msh.c`): a shallow embedding and its verified properties

The interpreter is a single C file.  Its state is the global `fg_pid`, the local
`last_status` of `main`, the process environment, the kernel's working directory and
the bytes written to the two output streams.  Everything the operating system decides
(what `fork`, `waitpid`, `chdir`, `getcwd`, `getpid` return, which signals arrive while a
child is waited for) is an explicit input, the record `Os`.

C strings are lists of characters; a buffer denotes the characters before its first NUL
(`cstr`).  Output is the sequence of bytes in program order (stdio buffering is not
modelled).
-/

namespace Msh

/-! ## C strings -/

/-- A NUL-terminated C string, as the list of its characters before the NUL. -/
abbrev CStr := List Char

/-- The NUL byte. -/
def NUL : Char := Char.ofNat 0

/-- The C string a `char *` to the start of `buf` denotes: the bytes before the first NUL. -/
def cstr (buf : List Char) : CStr := buf.takeWhile (fun c => c != NUL)

/-! ## The environment (`getenv`, `setenv`)

The environment is `environ`: a sequence of C strings, normally of the form `NAME=VALUE`.
`getenv` and `setenv` are modelled as glibc implements them: both look for the first entry
that begins with the given name followed by `=`. -/

/-- The process environment `environ`: its entries, in order. -/
abbrev Env := List CStr

/-- The search of `getenv` through `environ`: the first entry `e` with
`strncmp(e, name, len) == 0 && e[len] == '='` gives `e + len + 1`. -/
def getenv_entry : Env → CStr → Option CStr
  | [], _ => none
  | e :: rest, name =>
    if (name ++ ['=']).isPrefixOf e then some (e.drop (name.length + 1))
    else getenv_entry rest name

/-- Model of `getenv(name)`, `none` for `NULL`: `NULL` for the empty name, else the text after
`name=` in the first entry that begins with `name=`. -/
def getenv (env : Env) (name : CStr) : Option CStr :=
  if name = [] then none else getenv_entry env name

/-- The update of `setenv`: the first entry that begins with `name=` is replaced by
`name=value`; without such an entry `name=value` is added at the end. -/
def setenv_entry : Env → CStr → CStr → Env
  | [], name, value => [name ++ '=' :: value]
  | e :: rest, name, value =>
    if (name ++ ['=']).isPrefixOf e then (name ++ '=' :: value) :: rest
    else e :: setenv_entry rest name value

/-- Model of `setenv(name, value, 1)`: fails (environment unchanged) on an empty name or one
containing `=`, otherwise overwrites or adds the entry. -/
def setenv (env : Env) (name value : CStr) : Env :=
  if name = [] ∨ '=' ∈ name then env else setenv_entry env name value

/-! ## Interpreter state -/

/-- Side-effecting system calls the interpreter makes, in order. -/
inductive Sys where
  /-- Call `kill(pid, sig)`. -/
  | kill (pid : Int) (sig : Nat)
  /-- Call `fork()` for the command `argv`, returning `ret` in the parent. -/
  | fork (argv : List CStr) (ret : Int)
  /-- Call `chdir(dir)`; `ok` tells whether it returned 0. -/
  | chdir (dir : CStr) (ok : Bool)
deriving DecidableEq, Repr

/-- The interpreter's state: the global `fg_pid`, `main`'s `last_status`, the environment,
the kernel's working directory, and what has been written and called so far. -/
structure Shell where
  /-- The global `volatile sig_atomic_t fg_pid`. -/
  fg_pid : Int
  /-- The local `int last_status` of `main`. -/
  last_status : Int
  /-- The process environment. -/
  env : Env
  /-- The working directory of the process. -/
  cwd : CStr
  /-- Bytes written to standard output. -/
  out : List Char
  /-- Bytes written to standard error. -/
  err : List Char
  /-- System calls with an effect outside the process. -/
  sys : List Sys
deriving DecidableEq, Repr

/-- The two signals the interpreter handles. -/
inductive Signal where
  /-- The interrupt signal `SIGINT`. -/
  | int
  /-- The suspend signal `SIGTSTP`. -/
  | tstp
deriving DecidableEq, Repr

/-- What the operating system answers during one command cycle. -/
structure Os where
  /-- Result of `getpid()`. -/
  getpid : Int
  /-- Result of `fork()` as seen by this process. -/
  fork : Int
  /-- Result of `waitpid`: `none` when it returns -1, else the status word it stores. -/
  waitpid : Option Nat
  /-- Result of `getcwd` for a working directory: `none` when it returns `NULL`. -/
  getcwd : CStr → Option CStr
  /-- Result of `chdir(dir)` from a working directory: the new one, `none` on failure. -/
  chdir : CStr → CStr → Option CStr
  /-- The text `strerror(errno)` that `perror` appends. -/
  strerror : CStr
  /-- The handled signals that reach the interpreter after it has stored the child in
  `fg_pid` and before `waitpid` returns, in order of arrival. -/
  signals : List Signal

/-! ## Formatting (`printf("%d")`) -/

/-- Model of the C conversion `%d`. -/
def fmt_d (i : Int) : List Char :=
  if i < 0 then '-' :: Nat.toDigits 10 i.natAbs else Nat.toDigits 10 i.toNat

/-! ## Wait status words

The macros of `<sys/wait.h>` as glibc defines them on Linux, on the status word as a natural
number: `x & 0x7f` is `x % 128`, `x & 0xff` is `x % 256`, `(x & 0xff00) >> 8` is
`x / 256 % 256`. -/

/-- Macro `WTERMSIG(status)`: `status & 0x7f`. -/
def WTERMSIG (status : Nat) : Nat := status % 128

/-- Macro `WEXITSTATUS(status)`: `(status & 0xff00) >> 8`. -/
def WEXITSTATUS (status : Nat) : Nat := (status / 256) % 256

/-- Macro `WIFEXITED(status)`: `WTERMSIG(status) == 0`. -/
def WIFEXITED (status : Nat) : Bool := WTERMSIG status == 0

/-- Macro `WIFSIGNALED(status)`: `((signed char) ((status & 0x7f) + 1) >> 1) > 0`. -/
def WIFSIGNALED (status : Nat) : Bool :=
  let v : Int := ((status % 128 + 1 : Nat) : Int)
  let sc : Int := if v ≥ 128 then v - 256 else v
  decide (sc / 2 > 0)

/-- Macro `WIFSTOPPED(status)`: `(status & 0xff) == 0x7f`. -/
def WIFSTOPPED (status : Nat) : Bool := status % 256 == 127

/-- Macro `W_EXITCODE(ret, sig)`: the status word of a child that exited with code `ret`
(`sig = 0`) or was killed by signal `sig` (`ret = 0`), `ret << 8 | sig`. -/
def W_EXITCODE (ret sig : Nat) : Nat := ret * 256 + sig

/-- Macro `W_STOPCODE(sig)`: the status word of a child stopped by `sig`, `sig << 8 | 0x7f`. -/
def W_STOPCODE (sig : Nat) : Nat := sig * 256 + 127

/-- The core-dump flag `__WCOREFLAG` of a status word. -/
def WCOREFLAG : Nat := 128

/-- Number of `SIGINT` on Linux. -/
def SIGINT : Nat := 2

/-- Number of `SIGTSTP` on Linux. -/
def SIGTSTP : Nat := 20

/-! ## Signal handlers -/

/-- Append bytes to standard output. -/
def Shell.write_out (s : Shell) (bytes : List Char) : Shell :=
  { s with out := s.out ++ bytes }

/-- Append bytes to standard error. -/
def Shell.write_err (s : Shell) (bytes : List Char) : Shell :=
  { s with err := s.err ++ bytes }

/-- Record a system call. -/
def Shell.call (s : Shell) (c : Sys) : Shell :=
  { s with sys := s.sys ++ [c] }

/-- The function `sigint_handler`. -/
def sigint_handler (s : Shell) : Shell :=
  if s.fg_pid > 0 then s.call (Sys.kill s.fg_pid SIGINT)
  else s.write_out ['\n']

/-- The text `"Stopped child pid: %d\n"` for a process id. -/
def stopped_notice (pid : Int) : List Char :=
  ("Stopped child pid: ").toList ++ fmt_d pid ++ ['\n']

/-- The function `sigtstp_handler`. -/
def sigtstp_handler (s : Shell) : Shell :=
  if s.fg_pid > 0 then
    (s.call (Sys.kill s.fg_pid SIGTSTP)).write_out (stopped_notice s.fg_pid)
  else s.write_out ['\n']

/-- The handler installed for a signal. -/
def handle : Signal → Shell → Shell
  | Signal.int => sigint_handler
  | Signal.tstp => sigtstp_handler

/-- The handlers run for a sequence of signals, in order of arrival. -/
def deliver : List Signal → Shell → Shell
  | [], s => s
  | sig :: rest, s => deliver rest (handle sig s)

/-! ## Line preparation -/

/-- The store `if (nread > 0 && line[nread - 1] == '\n') line[nread - 1] = '\0';`, as the
C string the buffer holds afterwards. -/
def chomp (raw : List Char) : CStr :=
  cstr (if raw.getLast? = some '\n' then raw.dropLast else raw)

/-- The characters `trim` strips. -/
def is_trim_space (c : Char) : Bool := c == ' ' || c == '\t' || c == '\n' || c == '\r'

/-- The function `trim`: skip leading blanks; unless nothing is left, cut trailing blanks
back to (never including) the first remaining character. -/
def trim (s : CStr) : CStr :=
  match s.dropWhile is_trim_space with
  | [] => []
  | c :: rest => c :: rest.rdropWhile is_trim_space

/-! ## Assignment recognizer -/

/-- The test `c == ' ' || c == '\t'` used by `handle_assignment` and as `strtok_r` delimiters. -/
def is_blank (c : Char) : Bool := c == ' ' || c == '\t'

/-- First character of a name: letter or underscore. -/
def is_name_start (c : Char) : Bool :=
  (decide ('A' ≤ c) && decide (c ≤ 'Z')) || (decide ('a' ≤ c) && decide (c ≤ 'z')) || c == '_'

/-- Later character of a name: letter, digit or underscore. -/
def is_name_char (c : Char) : Bool :=
  (decide ('A' ≤ c) && decide (c ≤ 'Z')) || (decide ('a' ≤ c) && decide (c ≤ 'z'))
    || (decide ('0' ≤ c) && decide (c ≤ '9')) || c == '_'

/-- The function `handle_assignment` on the C string `line`: the returned triple is the
return value, the bytes of the line buffer afterwards, and the environment afterwards. -/
def handle_assignment (line : CStr) (env : Env) : Int × List Char × Env :=
  match line.span (fun c => c != '=') with
  | (_, []) => (0, line, env)
  | (name, _ :: value) =>
    if name.getLast?.any is_blank then (0, line, env)
    else if value.head?.any is_blank then (0, line, env)
    else if line.any is_blank then (0, line, env)
    else
      let buf := name ++ NUL :: value
      match name with
      | [] => (0, buf, env)
      | c :: rest =>
        if !is_name_start c then (0, buf, env)
        else if !rest.all is_name_char then (0, buf, env)
        else (1, buf, setenv env name value)

/-! ## Tokenizer -/

/-- One call of `strtok_r` with delimiters `" \t"`: the next token and the text after the
delimiter that ends it, `none` when only delimiters are left. -/
def strtok_r (s : CStr) : Option (CStr × CStr) :=
  match s.dropWhile is_blank with
  | [] => none
  | c :: cs =>
    some ((c :: cs).takeWhile (fun x => !is_blank x),
      ((c :: cs).dropWhile (fun x => !is_blank x)).tail)

/-- The constant `MAX_TOK`. -/
def MAX_TOK : Nat := 256

/-- The tokenizing loop of `main`, with room for `room` more tokens. -/
def tokenize_loop : Nat → CStr → List CStr
  | 0, _ => []
  | room + 1, s =>
    match strtok_r s with
    | none => []
    | some (tok, rest) => tok :: tokenize_loop room rest

/-- The array `tokens` that `main` builds: at most `MAX_TOK - 1` tokens. -/
def tokenize (cmdline : CStr) : List CStr := tokenize_loop (MAX_TOK - 1) cmdline

/-! ## Builtins and external commands -/

/-- Result of one pass through the body of `main`'s loop. -/
inductive Step where
  /-- The loop goes on to the next prompt. -/
  | next (s : Shell)
  /-- The interpreter terminates with status 0. -/
  | exit (s : Shell)
  /-- This process is the forked child: it resets the two signals to their defaults and
  calls `execvp(argv[0], argv)`. -/
  | child (s : Shell) (argv : List CStr)
deriving DecidableEq

/-- The call `perror(tag)`. -/
def perror (os : Os) (s : Shell) (tag : CStr) : Shell :=
  s.write_err (tag ++ [':', ' '] ++ os.strerror ++ ['\n'])

/-- The `cd` builtin. -/
def builtin_cd (os : Os) (s : Shell) (tokens : List CStr) : Shell :=
  let oldcwd : CStr := (os.getcwd s.cwd).getD []
  let target : Option (Option CStr × Bool) :=
    match tokens with
    | _ :: a1 :: _ =>
      if a1 = ['-'] then
        match getenv s.env ("OLDPWD").toList with
        | none => none
        | some oldd => some (some oldd, true)
      else some (some a1, false)
    | _ => some (getenv s.env ("HOME").toList, false)
  match target with
  | none => { s.write_err ("cd: OLDPWD not set\n").toList with last_status := 1 }
  | some (dir, print_new) =>
    let dir := dir.getD ['/']
    match os.chdir s.cwd dir with
    | none => { perror os (s.call (Sys.chdir dir false)) ("cd").toList with last_status := 1 }
    | some newcwd =>
      let s1 := { s.call (Sys.chdir dir true) with cwd := newcwd }
      let s2 :=
        if oldcwd ≠ [] then { s1 with env := setenv s1.env ("OLDPWD").toList oldcwd } else s1
      let s3 :=
        match os.getcwd newcwd with
        | none => s2
        | some cwd =>
          let s4 := { s2 with env := setenv s2.env ("PWD").toList cwd }
          if print_new then s4.write_out (cwd ++ ['\n']) else s4
      { s3 with last_status := 0 }

/-- The `pwd` builtin. -/
def builtin_pwd (os : Os) (s : Shell) : Shell :=
  match os.getcwd s.cwd with
  | none => { perror os s ("pwd").toList with last_status := 1 }
  | some cwd => { s.write_out (cwd ++ ['\n']) with last_status := 0 }

/-- What `echo` prints for one argument. -/
def expand (os : Os) (s : Shell) (a : CStr) : List Char :=
  match a with
  | '$' :: name =>
    if a = ['$', '?'] then fmt_d s.last_status
    else if a = ['$', '$'] then fmt_d os.getpid
    else if a = ("$SHELL").toList then (getenv s.env ("SHELL").toList).getD []
    else (getenv s.env name).getD []
  | _ => a

/-- The printing loop of `echo` over `tokens[1..t-1]`: each argument expanded, a space
after each but the last. -/
def echo_loop (os : Os) (s : Shell) : List CStr → List Char
  | [] => []
  | [a] => expand os s a
  | a :: b :: rest => expand os s a ++ ' ' :: echo_loop os s (b :: rest)

/-- The `echo` builtin. -/
def builtin_echo (os : Os) (s : Shell) (args : List CStr) : Shell :=
  { s.write_out (echo_loop os s args ++ ['\n']) with last_status := 0 }

/-- The parent after `fg_pid = pid`: `waitpid`, classification of the status, `fg_pid = 0`. -/
def wait_child (os : Os) (s : Shell) (pid : Int) : Shell :=
  let s1 :=
    match os.waitpid with
    | none => { perror os s ("waitpid").toList with last_status := 1 }
    | some status =>
      if WIFEXITED status then { s with last_status := (WEXITSTATUS status : Nat) }
      else if WIFSIGNALED status then { s with last_status := 128 + (WTERMSIG status : Nat) }
      else if WIFSTOPPED status then
        { s.write_out (stopped_notice pid) with last_status := 0 }
      else s
  { s1 with fg_pid := 0 }

/-- The parent between `fork` and `waitpid`: the store `fg_pid = pid`. -/
def set_foreground (s : Shell) (pid : Int) : Shell := { s with fg_pid := pid }

/-- An external command: `fork`, then in the parent publish the child, wait, classify.  The
handlers of the signals that arrive meanwhile run between the store `fg_pid = pid` and the
return of `waitpid`. -/
def run_external (os : Os) (s : Shell) (tokens : List CStr) : Step :=
  let s0 := s.call (Sys.fork tokens os.fork)
  if os.fork < 0 then Step.next { perror os s0 ("fork").toList with last_status := 1 }
  else if os.fork = 0 then Step.child s0 tokens
  else Step.next (wait_child os (deliver os.signals (set_foreground s0 os.fork)) os.fork)

/-! ## The loop of `main` -/

/-- The array `tokens` for a trimmed line: what the tokenizer reads from the line buffer
after `handle_assignment` has run on it. -/
def main_tokens (cmdline : CStr) (env : Env) : List CStr :=
  tokenize (cstr (handle_assignment cmdline env).2.1)

/-- Dispatch on `tokens[0]`: the builtins, else an external command. -/
def dispatch (os : Os) (s : Shell) (tokens : List CStr) : Step :=
  match tokens with
  | [] => Step.next s
  | t0 :: args =>
    if t0 = ("exit").toList then Step.exit s
    else if t0 = ("cd").toList then Step.next (builtin_cd os s tokens)
    else if t0 = ("pwd").toList then Step.next (builtin_pwd os s)
    else if t0 = ("echo").toList then Step.next (builtin_echo os s args)
    else run_external os s tokens

/-- The body of `main`'s loop once `getline` has returned the bytes `raw`. -/
def main_body (os : Os) (s : Shell) (raw : List Char) : Step :=
  let cmdline := trim (chomp raw)
  if cmdline = [] then Step.next s
  else if (handle_assignment cmdline s.env).1 ≠ 0 then
    Step.next { s with env := (handle_assignment cmdline s.env).2.2 }
  else dispatch os s (main_tokens cmdline s.env)

/-- The function `print_prompt`. -/
def print_prompt (s : Shell) : Shell :=
  match getenv s.env ("PS1").toList with
  | some (c :: ps1) => s.write_out (c :: ps1)
  | _ => s.write_out ("msh > ").toList

/-- What `getline` delivers. -/
inductive Read where
  /-- End of input. -/
  | eof
  /-- Interrupted by a signal (`EINTR`). -/
  | eintr
  /-- Another failure. -/
  | failed
  /-- A line of input, as the bytes read. -/
  | line (raw : List Char)

/-- One iteration of `main`'s loop: prompt, read, body. -/
def main_iter (os : Os) (s : Shell) (r : Read) : Step :=
  let s0 := print_prompt s
  match r with
  | Read.eof => Step.exit (s0.write_out ['\n'])
  | Read.eintr => Step.next s0
  | Read.failed => Step.next (perror os s0 ("getline").toList)
  | Read.line raw => main_body os s0 raw

/-- The start of `main` up to the loop: `SHELL`, `PWD` and `OLDPWD` are set up; `exe` is what
`readlink("/proc/self/exe")` yields (empty on failure). -/
def main_init (os : Os) (exe : CStr) (env : Env) (cwd : CStr) : Shell :=
  let env1 := if exe ≠ [] then setenv env ("SHELL").toList exe else env
  let env2 :=
    match os.getcwd cwd with
    | none => env1
    | some init_cwd =>
      let e := setenv env1 ("PWD").toList init_cwd
      if getenv e ("OLDPWD").toList = none then setenv e ("OLDPWD").toList init_cwd else e
  { fg_pid := 0, last_status := 0, env := env2, cwd := cwd, out := [], err := [], sys := [] }

/-- The state a `Step` carries. -/
def Step.state : Step → Shell
  | Step.next s => s
  | Step.exit s => s
  | Step.child s _ => s

/-! ## Path conditions and sample inputs -/

/-- The line `raw` is not taken as an assignment and `main` tokenizes it to `tokens`. -/
def dispatches (s : Shell) (raw : List Char) (tokens : List CStr) : Prop :=
  (handle_assignment (trim (chomp raw)) s.env).1 = 0 ∧
    main_tokens (trim (chomp raw)) s.env = tokens

/-- The token `t0` is none of the builtin names, so `main` goes on to `fork`. -/
def not_builtin (t0 : CStr) : Prop :=
  t0 ≠ ("exit").toList ∧ t0 ≠ ("cd").toList ∧ t0 ≠ ("pwd").toList ∧ t0 ≠ ("echo").toList

/-- A sample operating system: process id 4242, every directory exists and is readable, no
signal arrives; `fork` and `waitpid` answer as given. -/
def sample_os (fork : Int) (waitpid : Option Nat) : Os :=
  { getpid := 4242, fork := fork, waitpid := waitpid, getcwd := fun c => some c,
    chdir := fun _ d => some d, strerror := ("No such file or directory").toList,
    signals := [] }

/-- A sample idle interpreter: no foreground child, status 0, in `/tmp`. -/
def sample_shell : Shell :=
  { fg_pid := 0, last_status := 0, env := [("HOME=/root").toList],
    cwd := ("/tmp").toList, out := [], err := [], sys := [] }

/-! ## Counting stop notices in the output -/

/-- Number of positions of `text` at which `pat` starts. -/
def count_occurrences (pat : List Char) : List Char → Nat
  | [] => 0
  | c :: cs => (if pat.isPrefixOf (c :: cs) then 1 else 0) + count_occurrences pat cs

/-- The fixed text that opens every stop notice. -/
def notice_head : List Char := ("Stopped child pid: ").toList

/-- Number of stop notices in a stretch of output. -/
def count_notices (text : List Char) : Nat := count_occurrences notice_head text

/-- An external command during which the suspend signal reaches the interpreter while it
waits: `sigtstp_handler` runs in the state `main` has set up before `waitpid`, and `main`
then classifies what `waitpid` reports. -/
def run_external_suspended (os : Os) (s : Shell) (tokens : List CStr) : Shell :=
  wait_child os
    (sigtstp_handler (set_foreground (s.call (Sys.fork tokens os.fork)) os.fork)) os.fork

/-! ## Variables of the environment -/

/-- The value of the environment variable called `name`: in the first entry `NAME=VALUE`
whose `NAME`, the text before its first `=`, is `name`, the text after that `=`; `none` when
no entry defines `name`. -/
def env_value : Env → CStr → Option CStr
  | [], _ => none
  | e :: rest, name =>
    if '=' ∈ e ∧ e.takeWhile (fun c => c != '=') = name then
      some ((e.dropWhile (fun c => c != '=')).tail)
    else env_value rest name

/-! ## The pattern `NAME=VALUE` -/

/-- A letter, a digit or an underscore, the first character not a digit: the shape of a
variable name. -/
def valid_name (name : CStr) : Prop :=
  match name with
  | [] => False
  | c :: rest =>
    (c.isAlpha = true ∨ c = '_') ∧ ∀ x ∈ rest, x.isAlpha = true ∨ x.isDigit = true ∨ x = '_'

/-- The line is `name`, then the first `=` of the line, then `value`; it holds no space and
no tab, and `name` has the shape of a variable name. -/
def assignment_form (line name value : CStr) : Prop :=
  line = name ++ '=' :: value ∧ '=' ∉ name ∧ (∀ c ∈ line, c ≠ ' ' ∧ c ≠ '\t') ∧ valid_name name

/-- A sample operating system in which `getcwd` fails, as it does once the working
directory has been removed. -/
def sample_os_lost : Os := { sample_os 0 none with getcwd := fun _ => none }

/-- The interpreter as `main` starts it under `sample_os_lost` with an empty environment:
neither `PWD` nor `OLDPWD` gets recorded. -/
def sample_shell_lost : Shell := main_init sample_os_lost [] [] ("/gone").toList

/-! ## Lemmas and theorems -/

/-! ### Splitting at the first `=` -/

theorem span_at_eq (name value : CStr) (h : '=' ∉ name) :
    (name ++ '=' :: value).span (fun c => c != '=') = (name, '=' :: value) := by
  induction name with
  | nil => simp [List.span, List.span.loop]
  | cons c cs ih =>
    have hc : c ≠ '=' := fun e => h (e ▸ List.mem_cons_self _ _)
    have hcs : '=' ∉ cs := fun m => h (List.mem_cons_of_mem _ m)
    rw [List.span_eq_take_drop] at ih ⊢
    have ih' := ih hcs
    simp only [Prod.mk.injEq] at ih' ⊢
    have hb : (c != '=') = true := by simpa using hc
    simp [List.takeWhile_cons, List.dropWhile_cons, hb, ih'.1, ih'.2]

theorem span_no_eq (line : CStr) (h : '=' ∉ line) :
    line.span (fun c => c != '=') = (line, []) := by
  rw [List.span_eq_take_drop]
  have h1 : ∀ c ∈ line, (c != '=') = true := by
    intro c hc
    have : c ≠ '=' := fun e => h (e ▸ hc)
    simpa using this
  simp only [Prod.mk.injEq]
  exact ⟨List.takeWhile_eq_self_iff.mpr h1, List.dropWhile_eq_nil_iff.mpr h1⟩

theorem span_cases (line : CStr) :
    ('=' ∉ line ∧ line.span (fun c => c != '=') = (line, [])) ∨
    ∃ name value, line = name ++ '=' :: value ∧ '=' ∉ name ∧
      line.span (fun c => c != '=') = (name, '=' :: value) := by
  by_cases h : '=' ∈ line
  · obtain ⟨name, value, e, hn⟩ := List.eq_append_cons_of_mem h
    exact Or.inr ⟨name, value, e, hn, e ▸ span_at_eq name value hn⟩
  · exact Or.inl ⟨h, span_no_eq line h⟩

/-! ### The environment -/

theorem entry_prefix_iff (name e : CStr) (hn : '=' ∉ name) :
    (name ++ ['=']).isPrefixOf e = true ↔
      ('=' ∈ e ∧ e.takeWhile (fun c => c != '=') = name) := by
  rw [List.isPrefixOf_iff_prefix]
  constructor
  · rintro ⟨t, rfl⟩
    have e1 : name ++ ['='] ++ t = name ++ '=' :: t := by simp
    have hs := span_at_eq name t hn
    rw [List.span_eq_take_drop] at hs
    rw [e1]
    exact ⟨by simp, (Prod.mk.inj hs).1⟩
  · rintro ⟨hmem, htake⟩
    rcases span_cases e with ⟨hno, _⟩ | ⟨n, v, he, _, hs⟩
    · exact absurd hmem hno
    · rw [List.span_eq_take_drop] at hs
      have : n = name := by rw [← (Prod.mk.inj hs).1, htake]
      subst this
      exact ⟨v, by simp [he]⟩

theorem entry_prefix_drop (name e : CStr) (hn : '=' ∉ name)
    (h : (name ++ ['=']).isPrefixOf e = true) :
    e.drop (name.length + 1) = (e.dropWhile (fun c => c != '=')).tail := by
  rw [List.isPrefixOf_iff_prefix] at h
  obtain ⟨t, rfl⟩ := h
  have e1 : name ++ ['='] ++ t = name ++ '=' :: t := by simp
  have hs := span_at_eq name t hn
  rw [List.span_eq_take_drop] at hs
  rw [e1, (Prod.mk.inj hs).2]
  simp

theorem getenv_entry_eq_env_value (env : Env) (name : CStr) (hn : '=' ∉ name) :
    getenv_entry env name = env_value env name := by
  induction env with
  | nil => rfl
  | cons e rest ih =>
    by_cases h : (name ++ ['=']).isPrefixOf e = true
    · have h' := (entry_prefix_iff name e hn).mp h
      simp only [getenv_entry, env_value, h, h', and_self, if_true,
        entry_prefix_drop name e hn h]
    · have h' : ¬ ('=' ∈ e ∧ e.takeWhile (fun c => c != '=') = name) :=
        fun c => h ((entry_prefix_iff name e hn).mpr c)
      simp only [getenv_entry, env_value, h, h', if_false, ih]
      simp

/-- For a name free of `=` (and not empty), `getenv` returns the value of the variable of
that name. -/
theorem getenv_eq_env_value (env : Env) (name : CStr) (h0 : name ≠ []) (hn : '=' ∉ name) :
    getenv env name = env_value env name := by
  simp only [getenv, h0, if_false, getenv_entry_eq_env_value env name hn]

theorem getenv_entry_setenv_entry_self (env : Env) (name value : CStr) :
    getenv_entry (setenv_entry env name value) name = some value := by
  induction env with
  | nil => simp [setenv_entry, getenv_entry]
  | cons e rest ih =>
    by_cases h : (name ++ ['=']).isPrefixOf e = true
    · simp [setenv_entry, getenv_entry, h]
    · simp only [setenv_entry, getenv_entry, h, if_false, ih]
      simp

theorem getenv_setenv_entry_self (env : Env) (name value : CStr) (h0 : name ≠ []) :
    getenv (setenv_entry env name value) name = some value := by
  simp only [getenv, h0, if_false, getenv_entry_setenv_entry_self]

theorem env_value_setenv_entry_self (env : Env) (name value : CStr) (hn : '=' ∉ name) :
    env_value (setenv_entry env name value) name = some value := by
  rw [← getenv_entry_eq_env_value _ name hn, getenv_entry_setenv_entry_self]

theorem env_value_setenv_entry_other (env : Env) (name value other : CStr) (hn : '=' ∉ name)
    (h : other ≠ name) :
    env_value (setenv_entry env name value) other = env_value env other := by
  have hnew : ¬ ('=' ∈ name ++ '=' :: value ∧
      (name ++ '=' :: value).takeWhile (fun c => c != '=') = other) := by
    rintro ⟨_, ht⟩
    have hs := span_at_eq name value hn
    rw [List.span_eq_take_drop] at hs
    exact h (by rw [← ht, (Prod.mk.inj hs).1])
  induction env with
  | nil => simp only [setenv_entry, env_value, hnew, if_false]
  | cons e rest ih =>
    by_cases hp : (name ++ ['=']).isPrefixOf e = true
    · have hold : ¬ ('=' ∈ e ∧ e.takeWhile (fun c => c != '=') = other) := by
        rintro ⟨_, ht⟩
        exact h (by rw [← ht, ((entry_prefix_iff name e hn).mp hp).2])
      simp only [setenv_entry, hp, if_true, env_value, hnew, hold, if_false]
    · simp only [setenv_entry, hp, if_false, env_value, ih]

theorem getenv_setenv_entry_other (env : Env) (name value other : CStr) (hn : '=' ∉ name)
    (h : other ≠ name) (ho : '=' ∉ other) :
    getenv (setenv_entry env name value) other = getenv env other := by
  by_cases h0 : other = []
  · simp [getenv, h0]
  · rw [getenv_eq_env_value _ other h0 ho, getenv_eq_env_value _ other h0 ho,
      env_value_setenv_entry_other env name value other hn h]

/-! ### The line `echo $?` -/

theorem echo_status_cmdline : trim (chomp ("echo $?\n").toList) = ("echo $?").toList := by decide

theorem handle_assignment_echo_status (env : Env) :
    handle_assignment ("echo $?").toList env = (0, ("echo $?").toList, env) := by rfl

theorem main_body_echo_status (os : Os) (s : Shell) :
    main_body os s ("echo $?\n").toList
      = Step.next { s with out := s.out ++ (fmt_d s.last_status ++ ['\n']), last_status := 0 } := by
  have ht : main_tokens ("echo $?").toList s.env = [("echo").toList, ['$', '?']] := by
    simp only [main_tokens, handle_assignment_echo_status]
    decide
  simp only [main_body, echo_status_cmdline, handle_assignment_echo_status, ht]
  simp [dispatch, builtin_echo, echo_loop, expand, Shell.write_out]

theorem print_prompt_last_status (s : Shell) : (print_prompt s).last_status = s.last_status := by
  unfold print_prompt
  split <;> rfl

/-! ### External commands -/

theorem main_tokens_nil (env : Env) : main_tokens [] env = [] := by rfl

theorem main_body_dispatches (os : Os) (s : Shell) (raw : List Char) (t0 : CStr)
    (rest : List CStr) (h : dispatches s raw (t0 :: rest)) :
    main_body os s raw = dispatch os s (t0 :: rest) := by
  obtain ⟨hasg, htok⟩ := h
  have hne : trim (chomp raw) ≠ [] := by
    intro he
    rw [he, main_tokens_nil] at htok
    cases htok
  simp only [main_body, hne, hasg, htok]
  simp

theorem main_body_external (os : Os) (s : Shell) (raw : List Char) (cmd : CStr)
    (args : List CStr) (h : dispatches s raw (cmd :: args)) (hext : not_builtin cmd)
    (hfork : 0 < os.fork) :
    main_body os s raw = Step.next
      (wait_child os
        (deliver os.signals (set_foreground (s.call (Sys.fork (cmd :: args) os.fork)) os.fork))
        os.fork) := by
  obtain ⟨h1, h2, h3, h4⟩ := hext
  have hn : ¬ os.fork < 0 := by omega
  have hz : ¬ os.fork = 0 := by omega
  rw [main_body_dispatches os s raw cmd args h]
  simp only [dispatch, run_external, if_neg h1, if_neg h2, if_neg h3, if_neg h4, if_neg hn,
    if_neg hz]

theorem wait_child_exited (os : Os) (s : Shell) (pid : Int) (k : Nat) (hk : k ≤ 255)
    (hwait : os.waitpid = some (W_EXITCODE k 0)) :
    wait_child os s pid = { s with last_status := (k : Int), fg_pid := 0 } := by
  have h1 : WIFEXITED (W_EXITCODE k 0) = true := by
    simp only [WIFEXITED, WTERMSIG, W_EXITCODE]
    have : (k * 256 + 0) % 128 = 0 := by omega
    rw [this]; rfl
  have h2 : WEXITSTATUS (W_EXITCODE k 0) = k := by
    simp only [WEXITSTATUS, W_EXITCODE]; omega
  simp [wait_child, hwait, h1, h2]

theorem wait_child_signaled (os : Os) (s : Shell) (pid : Int) (sig : Nat) (core : Bool)
    (h1 : 1 ≤ sig) (h2 : sig ≤ 126)
    (hwait : os.waitpid = some (W_EXITCODE 0 sig + (if core then WCOREFLAG else 0))) :
    wait_child os s pid = { s with last_status := 128 + (sig : Int), fg_pid := 0 } := by
  have hm : (W_EXITCODE 0 sig + (if core then WCOREFLAG else 0)) % 128 = sig := by
    cases core <;> simp [W_EXITCODE, WCOREFLAG] <;> omega
  have e1 : WIFEXITED (W_EXITCODE 0 sig + (if core then WCOREFLAG else 0)) = false := by
    simp only [WIFEXITED, WTERMSIG, hm]; simp; omega
  have e2 : WIFSIGNALED (W_EXITCODE 0 sig + (if core then WCOREFLAG else 0)) = true := by
    simp only [WIFSIGNALED, hm]
    have : ¬ ((sig + 1 : Nat) : Int) ≥ 128 := by omega
    simp only [this, if_false]
    simp; omega
  simp [wait_child, hwait, e1, e2, WTERMSIG, hm]

theorem wait_child_fg_pid (os : Os) (s : Shell) (pid : Int) :
    (wait_child os s pid).fg_pid = 0 := by
  simp [wait_child]

/-! ### C1: normal exit -/

/-- C1: when an external command's child exits normally with code `k` (0 to 255), the
command cycle returns to the prompt with `last_status = k` and `fg_pid = 0`, and the line
`echo $?` read at the next prompt prints the decimal form of `k` and a newline. -/
theorem exited_child_status (os : Os) (s : Shell) (raw : List Char) (cmd : CStr)
    (args : List CStr) (k : Nat)
    (hline : dispatches s raw (cmd :: args)) (hext : not_builtin cmd)
    (hfork : 0 < os.fork) (hk : k ≤ 255) (hwait : os.waitpid = some (W_EXITCODE k 0)) :
    ∃ s1, main_body os s raw = Step.next s1 ∧ s1.last_status = (k : Int) ∧ s1.fg_pid = 0 ∧
      ∀ os2, ∃ s2, main_body os2 (print_prompt s1) ("echo $?\n").toList = Step.next s2 ∧
        s2.out = (print_prompt s1).out ++ (fmt_d (k : Int) ++ ['\n']) := by
  refine ⟨_, main_body_external os s raw cmd args hline hext hfork, ?_, ?_, ?_⟩
  · rw [wait_child_exited os _ _ k hk hwait]
  · exact wait_child_fg_pid os _ _
  · intro os2
    refine ⟨_, main_body_echo_status os2 _, ?_⟩
    simp only [print_prompt_last_status]
    rw [wait_child_exited os _ _ k hk hwait]

/-- C1 at the line `ls` whose child 555 exits with code 3. -/
theorem exited_child_status_witness :
    ∃ s1, main_body (sample_os 555 (some (W_EXITCODE 3 0))) sample_shell ("ls\n").toList
        = Step.next s1 ∧ s1.last_status = ((3 : Nat) : Int) ∧ s1.fg_pid = 0 ∧
      ∀ os2, ∃ s2, main_body os2 (print_prompt s1) ("echo $?\n").toList = Step.next s2 ∧
        s2.out = (print_prompt s1).out ++ (fmt_d ((3 : Nat) : Int) ++ ['\n']) :=
  exited_child_status (sample_os 555 (some (W_EXITCODE 3 0))) sample_shell ("ls\n").toList
    ("ls").toList [] 3 ⟨by decide, by decide⟩ (by unfold not_builtin; decide) (by decide)
    (by decide) rfl

/-! ### C2: death by signal -/

/-- C2: when an external command's child is terminated by signal `sig` (with or without a
core dump), the command cycle returns to the prompt with `last_status = 128 + sig` and
`fg_pid = 0`, and the line `echo $?` read at the next prompt prints `128 + sig`. -/
theorem signaled_child_status (os : Os) (s : Shell) (raw : List Char) (cmd : CStr)
    (args : List CStr) (sig : Nat) (core : Bool)
    (hline : dispatches s raw (cmd :: args)) (hext : not_builtin cmd)
    (hfork : 0 < os.fork) (h1 : 1 ≤ sig) (h2 : sig ≤ 126)
    (hwait : os.waitpid = some (W_EXITCODE 0 sig + (if core then WCOREFLAG else 0))) :
    ∃ s1, main_body os s raw = Step.next s1 ∧ s1.last_status = 128 + (sig : Int) ∧
      s1.fg_pid = 0 ∧
      ∀ os2, ∃ s2, main_body os2 (print_prompt s1) ("echo $?\n").toList = Step.next s2 ∧
        s2.out = (print_prompt s1).out ++ (fmt_d (128 + (sig : Int)) ++ ['\n']) := by
  refine ⟨_, main_body_external os s raw cmd args hline hext hfork, ?_, ?_, ?_⟩
  · rw [wait_child_signaled os _ _ sig core h1 h2 hwait]
  · exact wait_child_fg_pid os _ _
  · intro os2
    refine ⟨_, main_body_echo_status os2 _, ?_⟩
    simp only [print_prompt_last_status]
    rw [wait_child_signaled os _ _ sig core h1 h2 hwait]

/-- C2 at the line `sleep 9` whose child 555 is killed by signal 9. -/
theorem signaled_child_status_witness :
    ∃ s1, main_body (sample_os 555 (some 9)) sample_shell ("sleep 9\n").toList = Step.next s1 ∧
      s1.last_status = 128 + ((9 : Nat) : Int) ∧ s1.fg_pid = 0 ∧
      ∀ os2, ∃ s2, main_body os2 (print_prompt s1) ("echo $?\n").toList = Step.next s2 ∧
        s2.out = (print_prompt s1).out ++ (fmt_d (128 + ((9 : Nat) : Int)) ++ ['\n']) :=
  signaled_child_status (sample_os 555 (some 9)) sample_shell ("sleep 9\n").toList
    ("sleep").toList [['9']] 9 false ⟨by decide, by decide⟩ (by unfold not_builtin; decide)
    (by decide) (by decide) (by decide) rfl

/-! ### C3: a stopped child -/

/-- C3, refuted as stated: the line `sleep 100` whose child 555 is reported stopped by
`SIGTSTP` leaves `fg_pid = 0`, not 555, when the cycle is back at the prompt. -/
theorem stopped_child_fg_pid_counterexample :
    WIFSTOPPED (W_STOPCODE SIGTSTP) = true ∧
    main_body (sample_os 555 (some (W_STOPCODE SIGTSTP))) sample_shell ("sleep 100\n").toList
      = Step.next { sample_shell with
          fg_pid := 0, last_status := 0, out := stopped_notice 555,
          sys := [Sys.fork [("sleep").toList, ("100").toList] 555] } ∧
    (main_body (sample_os 555 (some (W_STOPCODE SIGTSTP))) sample_shell
      ("sleep 100\n").toList).state.fg_pid ≠ 555 := by
  decide

theorem wait_child_sys (os : Os) (s : Shell) (pid : Int) : (wait_child os s pid).sys = s.sys := by
  unfold wait_child
  cases os.waitpid with
  | none => rfl
  | some status =>
    simp only []
    split
    · rfl
    · split
      · rfl
      · split <;> rfl

theorem sigint_relayed (s : Shell) (h : 0 < s.fg_pid) :
    sigint_handler s = s.call (Sys.kill s.fg_pid SIGINT) := by
  simp [sigint_handler, h]

/-- C3 as amended: `fg_pid` holds the child's process id from the fork until `waitpid`
returns, so that an interrupt arriving in that window is relayed to the child; and whatever
`waitpid` reports (exited, signaled, stopped, or a failure) the command cycle returns to the
prompt with `fg_pid = 0`, so that an interrupt arriving then is relayed to no process, not
even to a child that is only stopped. -/
theorem fg_pid_cleared_after_wait (os : Os) (s : Shell) (raw : List Char) (cmd : CStr)
    (args : List CStr)
    (hline : dispatches s raw (cmd :: args)) (hext : not_builtin cmd) (hfork : 0 < os.fork) :
    (∃ s1, main_body os s raw = Step.next s1 ∧ s1.fg_pid = 0 ∧
      sigint_handler s1 = { s1 with out := s1.out ++ ['\n'] }) ∧
    main_body { os with signals := [Signal.int] } s raw = Step.next
      (wait_child os
        ((set_foreground (s.call (Sys.fork (cmd :: args) os.fork)) os.fork).call
          (Sys.kill os.fork SIGINT)) os.fork) ∧
    (main_body { os with signals := [Signal.int] } s raw).state.sys
      = s.sys ++ [Sys.fork (cmd :: args) os.fork, Sys.kill os.fork SIGINT] ∧
    (main_body { os with signals := [Signal.int] } s raw).state.fg_pid = 0 := by
  have hrun : main_body { os with signals := [Signal.int] } s raw = Step.next
      (wait_child os
        ((set_foreground (s.call (Sys.fork (cmd :: args) os.fork)) os.fork).call
          (Sys.kill os.fork SIGINT)) os.fork) := by
    rw [main_body_external { os with signals := [Signal.int] } s raw cmd args hline hext hfork]
    have hpos : 0 < (set_foreground (s.call (Sys.fork (cmd :: args) os.fork)) os.fork).fg_pid :=
      hfork
    simp only [deliver, handle]
    rw [sigint_relayed _ hpos]
    rfl
  refine ⟨⟨_, main_body_external os s raw cmd args hline hext hfork, wait_child_fg_pid os _ _,
    ?_⟩, hrun, ?_, ?_⟩
  · simp [sigint_handler, wait_child_fg_pid, Shell.write_out]
  · rw [hrun]
    simp [Step.state, wait_child_sys, Shell.call, set_foreground]
  · rw [hrun]
    exact wait_child_fg_pid os _ _

/-- C3 as amended, at the line `sleep 100` whose child 555 is reported stopped. -/
theorem fg_pid_cleared_after_wait_witness :
    (∃ s1, main_body (sample_os 555 (some (W_STOPCODE SIGTSTP))) sample_shell
        ("sleep 100\n").toList = Step.next s1 ∧ s1.fg_pid = 0 ∧
      sigint_handler s1 = { s1 with out := s1.out ++ ['\n'] }) ∧
    (main_body { sample_os 555 (some (W_STOPCODE SIGTSTP)) with signals := [Signal.int] }
        sample_shell ("sleep 100\n").toList).state.sys
      = sample_shell.sys
        ++ [Sys.fork [("sleep").toList, ("100").toList] 555, Sys.kill 555 SIGINT] :=
  have h := fg_pid_cleared_after_wait (sample_os 555 (some (W_STOPCODE SIGTSTP))) sample_shell
    ("sleep 100\n").toList ("sleep").toList [("100").toList] ⟨by decide, by decide⟩
    (by unfold not_builtin; decide) (by decide)
  ⟨h.1, h.2.2.1⟩

/-! ### C5: interrupt at an idle prompt -/

/-- C5: with no foreground process recorded (`fg_pid = 0`), `sigint_handler` appends exactly
one newline byte to standard output and changes nothing else: no `kill` (or other system
call) is made, nothing goes to standard error, and `last_status`, `fg_pid`, the environment
and the working directory are as before. -/
theorem sigint_idle_newline_only (s : Shell) (h : s.fg_pid = 0) :
    sigint_handler s = { s with out := s.out ++ ['\n'] } := by
  simp [sigint_handler, h, Shell.write_out]

/-- C5 at the sample idle interpreter. -/
theorem sigint_idle_newline_only_witness :
    sample_shell.fg_pid = 0 ∧
    sigint_handler sample_shell = { sample_shell with out := sample_shell.out ++ ['\n'] } :=
  ⟨rfl, sigint_idle_newline_only sample_shell rfl⟩

/-! ### C4: notices for a stopped child -/

theorem digitChar_ne_S (d : Nat) (h : d < 10) : Nat.digitChar d ≠ 'S' := by
  interval_cases d <;> decide

theorem toDigitsCore_no_S (fuel : Nat) : ∀ (n : Nat) (ds : List Char),
    (∀ c ∈ ds, c ≠ 'S') → ∀ c ∈ Nat.toDigitsCore 10 fuel n ds, c ≠ 'S' := by
  induction fuel with
  | zero => intro n ds h; simpa [Nat.toDigitsCore] using h
  | succ f ih =>
    intro n ds h
    have hd : Nat.digitChar (n % 10) ≠ 'S' := digitChar_ne_S _ (Nat.mod_lt _ (by decide))
    have hcons : ∀ c ∈ Nat.digitChar (n % 10) :: ds, c ≠ 'S' := by
      intro c hc
      rcases List.mem_cons.mp hc with rfl | hc
      · exact hd
      · exact h c hc
    simp only [Nat.toDigitsCore]
    split
    · exact hcons
    · exact ih _ _ hcons

theorem fmt_d_no_S (i : Int) : ∀ c ∈ fmt_d i, c ≠ 'S' := by
  intro c hc
  unfold fmt_d at hc
  split at hc
  · rcases List.mem_cons.mp hc with rfl | hc
    · decide
    · exact toDigitsCore_no_S _ _ [] (by simp) c hc
  · exact toDigitsCore_no_S _ _ [] (by simp) c hc

theorem count_occurrences_cons (pat : List Char) (c : Char) (cs : List Char) :
    count_occurrences pat (c :: cs)
      = (if pat.isPrefixOf (c :: cs) then 1 else 0) + count_occurrences pat cs := rfl

theorem notice_head_eq : notice_head = 'S' :: ("topped child pid: ").toList := by decide

theorem notice_head_not_prefix (c : Char) (t : List Char) (hc : c ≠ 'S') :
    ¬ notice_head <+: c :: t := by
  intro hp
  rw [notice_head_eq, List.cons_prefix_cons] at hp
  exact hc hp.1.symm

theorem count_notices_skip (t rest : List Char) (h : ∀ c ∈ t, c ≠ 'S') :
    count_notices (t ++ rest) = count_notices rest := by
  induction t with
  | nil => rfl
  | cons c cs ih =>
    have hc : c ≠ 'S' := h c (List.mem_cons_self _ _)
    have hp := notice_head_not_prefix c (cs ++ rest) hc
    have := ih (fun x hx => h x (List.mem_cons_of_mem _ hx))
    simp only [count_notices] at this ⊢
    simp [count_occurrences, hp, this]

theorem count_notices_head (rest : List Char) :
    count_notices (notice_head ++ rest) = 1 + count_notices rest := by
  have hs : ∀ c ∈ ("topped child pid: ").toList, c ≠ 'S' := by decide
  have hk := count_notices_skip ("topped child pid: ").toList rest hs
  have hp : notice_head <+: 'S' :: (("topped child pid: ").toList ++ rest) := by
    rw [notice_head_eq]
    exact List.prefix_append _ _
  have e : notice_head ++ rest = 'S' :: (("topped child pid: ").toList ++ rest) := by
    rw [notice_head_eq]; rfl
  rw [e]
  simp only [count_notices] at hk ⊢
  rw [count_occurrences_cons, hk]
  simp only [List.isPrefixOf_iff_prefix, hp, if_true]

theorem count_notices_one (pid : Int) (rest : List Char) :
    count_notices (stopped_notice pid ++ rest) = 1 + count_notices rest := by
  have e : stopped_notice pid ++ rest = notice_head ++ ((fmt_d pid ++ ['\n']) ++ rest) := by
    simp [stopped_notice, notice_head]
  have hs : ∀ c ∈ fmt_d pid ++ ['\n'], c ≠ 'S' := by
    intro c hc
    rcases List.mem_append.mp hc with h | h
    · exact fmt_d_no_S pid c h
    · rw [List.mem_singleton.mp h]; decide
  rw [e, count_notices_head, count_notices_skip _ _ hs]

theorem wifstopped_not_exited (st : Nat) (h : WIFSTOPPED st = true) : WIFEXITED st = false := by
  simp only [WIFSTOPPED, beq_iff_eq] at h
  have : st % 128 ≠ 0 := by omega
  simpa [WIFEXITED, WTERMSIG] using this

theorem wifstopped_not_signaled (st : Nat) (h : WIFSTOPPED st = true) :
    WIFSIGNALED st = false := by
  simp only [WIFSTOPPED, beq_iff_eq] at h
  have hm : st % 128 = 127 := by omega
  simp only [WIFSIGNALED, hm]
  decide

theorem wait_child_stopped (os : Os) (s : Shell) (pid : Int) (st : Nat)
    (hwait : os.waitpid = some st) (hstop : WIFSTOPPED st = true) :
    wait_child os s pid
      = { s with out := s.out ++ stopped_notice pid, last_status := 0, fg_pid := 0 } := by
  simp [wait_child, hwait, hstop, wifstopped_not_exited st hstop,
    wifstopped_not_signaled st hstop, Shell.write_out]

theorem run_external_tstp (os : Os) (s : Shell) (tokens : List CStr) (hfork : 0 < os.fork) :
    run_external { os with signals := [Signal.tstp] } s tokens
      = Step.next (run_external_suspended os s tokens) := by
  have hn : ¬ os.fork < 0 := by omega
  have hz : ¬ os.fork = 0 := by omega
  simp only [run_external, if_neg hn, if_neg hz, deliver, handle, run_external_suspended]
  rfl

/-- C4, refuted as stated: for the command `sleep 100` whose child 555 is stopped through
the relayed suspend signal, the handler's output followed by the main loop's output holds
two stop notices, not one. -/
theorem stop_notice_count_counterexample :
    (run_external_suspended (sample_os 555 (some (W_STOPCODE SIGTSTP))) sample_shell
        [("sleep").toList, ("100").toList]).out
      = ("Stopped child pid: 555\nStopped child pid: 555\n").toList ∧
    count_notices (run_external_suspended (sample_os 555 (some (W_STOPCODE SIGTSTP)))
        sample_shell [("sleep").toList, ("100").toList]).out = 2 := by
  decide

/-- C4 as amended: when `waitpid` reports the foreground child `pid` stopped, the main loop
sets `last_status` to 0 and prints one stop notice, `Stopped child pid: ` followed by the
decimal form of `pid` and a newline; `sigtstp_handler`, when it runs for that child, writes
the same notice once more, so that the whole output for the stop then holds two notices. -/
theorem stop_notice_count (os : Os) (s : Shell) (tokens : List CStr) (st : Nat)
    (hfork : 0 < os.fork) (hwait : os.waitpid = some st) (hstop : WIFSTOPPED st = true) :
    (wait_child os (set_foreground (s.call (Sys.fork tokens os.fork)) os.fork)
        os.fork).last_status = 0 ∧
    (wait_child os (set_foreground (s.call (Sys.fork tokens os.fork)) os.fork) os.fork).out
      = s.out ++ stopped_notice os.fork ∧
    count_notices (stopped_notice os.fork) = 1 ∧
    fmt_d os.fork <:+: stopped_notice os.fork ∧
    (run_external_suspended os s tokens).last_status = 0 ∧
    (run_external_suspended os s tokens).out
      = s.out ++ (stopped_notice os.fork ++ stopped_notice os.fork) ∧
    count_notices (stopped_notice os.fork ++ stopped_notice os.fork) = 2 := by
  have hpos : (set_foreground (s.call (Sys.fork tokens os.fork)) os.fork).fg_pid > 0 := hfork
  have c1 : count_notices (stopped_notice os.fork) = 1 := by
    have := count_notices_one os.fork []
    simpa [count_notices, count_occurrences] using this
  refine ⟨?_, ?_, c1, ?_, ?_, ?_, ?_⟩
  · rw [wait_child_stopped os _ _ st hwait hstop]
  · rw [wait_child_stopped os _ _ st hwait hstop]
    rfl
  · exact List.infix_append _ _ _
  · simp only [run_external_suspended]
    rw [wait_child_stopped os _ _ st hwait hstop]
  · simp only [run_external_suspended]
    rw [wait_child_stopped os _ _ st hwait hstop]
    simp only [sigtstp_handler, if_pos hpos]
    simp [Shell.write_out, Shell.call, set_foreground]
  · rw [count_notices_one, c1]

/-- C4 as amended, at a child 555 stopped by `SIGTSTP`. -/
theorem stop_notice_count_witness :
    (wait_child (sample_os 555 (some (W_STOPCODE SIGTSTP)))
      (set_foreground (sample_shell.call (Sys.fork [("vi").toList] 555)) 555)
        555).last_status = 0 ∧
    (wait_child (sample_os 555 (some (W_STOPCODE SIGTSTP)))
      (set_foreground (sample_shell.call (Sys.fork [("vi").toList] 555)) 555) 555).out
      = sample_shell.out ++ stopped_notice 555 ∧
    count_notices (stopped_notice 555) = 1 ∧
    fmt_d 555 <:+: stopped_notice 555 ∧
    (run_external_suspended (sample_os 555 (some (W_STOPCODE SIGTSTP))) sample_shell
      [("vi").toList]).last_status = 0 ∧
    (run_external_suspended (sample_os 555 (some (W_STOPCODE SIGTSTP))) sample_shell
      [("vi").toList]).out = sample_shell.out ++ (stopped_notice 555 ++ stopped_notice 555) ∧
    count_notices (stopped_notice 555 ++ stopped_notice 555) = 2 :=
  stop_notice_count (sample_os 555 (some (W_STOPCODE SIGTSTP))) sample_shell [("vi").toList]
    (W_STOPCODE SIGTSTP) (by decide) rfl (by decide)

/-! ### C6: the assignment recognizer -/

theorem is_name_start_iff (c : Char) :
    is_name_start c = true ↔ (c.isAlpha = true ∨ c = '_') := by
  simp [is_name_start, Char.isAlpha, Char.isUpper, Char.isLower, Char.le_def, UInt32.le_def]

theorem is_name_char_iff (c : Char) :
    is_name_char c = true ↔ (c.isAlpha = true ∨ c.isDigit = true ∨ c = '_') := by
  simp [is_name_char, Char.isAlpha, Char.isUpper, Char.isLower, Char.isDigit, Char.le_def,
    UInt32.le_def, or_assoc]

theorem any_blank_false_iff (line : CStr) :
    line.any is_blank = false ↔ ∀ c ∈ line, c ≠ ' ' ∧ c ≠ '\t' := by
  simp [List.any_eq_false, is_blank]

theorem handle_assignment_no_eq (line : CStr) (env : Env) (h : '=' ∉ line) :
    handle_assignment line env = (0, line, env) := by
  simp only [handle_assignment, span_no_eq line h]

theorem handle_assignment_blank (line : CStr) (env : Env) (h : line.any is_blank = true) :
    handle_assignment line env = (0, line, env) := by
  rcases span_cases line with ⟨hn, _⟩ | ⟨name, value, e, hn, hs⟩
  · exact handle_assignment_no_eq line env hn
  · simp only [handle_assignment, hs, h, if_true]
    split <;> [rfl; (split <;> rfl)]

theorem handle_assignment_at (name value : CStr) (env : Env) (hn : '=' ∉ name)
    (hb : (name ++ '=' :: value).any is_blank = false) :
    handle_assignment (name ++ '=' :: value) env =
      match name with
      | [] => (0, name ++ NUL :: value, env)
      | c :: rest =>
        if !is_name_start c then (0, name ++ NUL :: value, env)
        else if !rest.all is_name_char then (0, name ++ NUL :: value, env)
        else (1, name ++ NUL :: value, setenv env name value) := by
  have hall : ∀ c ∈ name ++ '=' :: value, is_blank c = false := by
    intro c hc
    have := List.any_eq_false.mp hb c hc
    simpa using this
  have h1 : name.getLast?.any is_blank = false := by
    cases hl : name.getLast? with
    | none => rfl
    | some x =>
      have hx : x ∈ name := List.mem_of_getLast?_eq_some hl
      simpa using hall x (List.mem_append_left _ hx)
  have h2 : value.head?.any is_blank = false := by
    cases value with
    | nil => rfl
    | cons x xs =>
      simpa using hall x (by simp)
  simp only [handle_assignment, span_at_eq name value hn, h1, h2, hb]
  cases name <;> simp

theorem setenv_valid (env : Env) (name value : CStr) (h0 : name ≠ []) (hn : '=' ∉ name) :
    setenv env name value = setenv_entry env name value := by
  simp [setenv, h0, hn]

theorem valid_name_ne_nil (name : CStr) (h : valid_name name) : name ≠ [] := by
  intro e
  subst e
  exact h

theorem handle_assignment_form (line name value : CStr) (env : Env)
    (h : assignment_form line name value) :
    handle_assignment line env = (1, name ++ NUL :: value, setenv_entry env name value) := by
  obtain ⟨e, hn, hb, hv⟩ := h
  subst e
  have hb' := (any_blank_false_iff _).mpr hb
  rw [handle_assignment_at name value env hn hb', setenv_valid env name value
    (valid_name_ne_nil name hv) hn]
  cases name with
  | nil => exact absurd hv (by simp [valid_name])
  | cons c rest =>
    obtain ⟨hc, hr⟩ := hv
    have h1 : is_name_start c = true := (is_name_start_iff c).mpr hc
    have h2 : rest.all is_name_char = true := by
      rw [List.all_eq_true]
      exact fun x hx => (is_name_char_iff x).mpr (hr x hx)
    simp [h1, h2]

theorem handled_has_form (line : CStr) (env : Env) (h : (handle_assignment line env).1 = 1) :
    ∃ name value, assignment_form line name value := by
  rcases span_cases line with ⟨hn, _⟩ | ⟨name, value, e, hn, _⟩
  · rw [handle_assignment_no_eq line env hn] at h
    cases h
  · by_cases hb : line.any is_blank = true
    · rw [handle_assignment_blank line env hb] at h
      cases h
    · have hb' : line.any is_blank = false := by simpa using hb
      refine ⟨name, value, e, hn, (any_blank_false_iff line).mp hb', ?_⟩
      subst e
      rw [handle_assignment_at name value env hn hb'] at h
      cases name with
      | nil => cases h
      | cons c rest =>
        by_cases h1 : is_name_start c = true
        · by_cases h2 : rest.all is_name_char = true
          · refine ⟨(is_name_start_iff c).mp h1, fun x hx => (is_name_char_iff x).mp ?_⟩
            exact List.all_eq_true.mp h2 x hx
          · simp [h1, h2] at h
        · simp [h1] at h

/-- C6, refuted as stated: the trimmed line `A=b\rc` holds a carriage return, a whitespace
character (one that `trim` strips), and `handle_assignment` still reports it handled. -/
theorem assignment_whitespace_counterexample :
    trim ['A', '=', 'b', '\r', 'c'] = ['A', '=', 'b', '\r', 'c'] ∧
    List.any ['A', '=', 'b', '\r', 'c'] Char.isWhitespace = true ∧
    List.any ['A', '=', 'b', '\r', 'c'] is_trim_space = true ∧
    handle_assignment ['A', '=', 'b', '\r', 'c'] []
      = (1, ['A', NUL, 'b', '\r', 'c'], [['A', '=', 'b', '\r', 'c']]) := by
  decide

/-- C6 as amended: `handle_assignment` returns 1 exactly when the line is `NAME=VALUE` with
no space and no tab anywhere in it, where `NAME`, the text before the first `=`, starts with
a letter or underscore and goes on with letters, digits and underscores only; and then the
environment afterwards maps `NAME` to `VALUE`, the text after the first `=` (that is its
value as a variable and what `getenv` returns for it), and every other variable has the
value it had before. -/
theorem assignment_recognized (line : CStr) (env : Env) :
    ((handle_assignment line env).1 = 1 ↔ ∃ name value, assignment_form line name value) ∧
    ∀ name value, assignment_form line name value →
      getenv (handle_assignment line env).2.2 name = some value ∧
      env_value (handle_assignment line env).2.2 name = some value ∧
      (∀ other, other ≠ name →
        env_value (handle_assignment line env).2.2 other = env_value env other) ∧
      ∀ other, other ≠ name → '=' ∉ other →
        getenv (handle_assignment line env).2.2 other = getenv env other := by
  refine ⟨⟨handled_has_form line env, ?_⟩, ?_⟩
  · rintro ⟨name, value, h⟩
    rw [handle_assignment_form line name value env h]
  · intro name value h
    have hn : '=' ∉ name := h.2.1
    have h0 : name ≠ [] := valid_name_ne_nil name h.2.2.2
    rw [handle_assignment_form line name value env h]
    exact ⟨getenv_setenv_entry_self env name value h0,
      env_value_setenv_entry_self env name value hn,
      fun other ho => env_value_setenv_entry_other env name value other hn ho,
      fun other ho hf => getenv_setenv_entry_other env name value other hn ho hf⟩

/-! ### C7: a rejected line -/

/-- C7, the code at the line `1A=foo`: `handle_assignment` returns 0 with the environment
unchanged, but has stored a NUL over the `=`, so the buffer no longer holds the line; the
tokenizer reads `1A`, and `main` forks for a command named `1A`, not `1A=foo`.  The line
`FOO=bar baz`, rejected before the split, is left as it was and gives the command name
`FOO=bar`. -/
theorem rejected_line_is_cut :
    handle_assignment ("FOO=bar baz").toList sample_shell.env
      = (0, ("FOO=bar baz").toList, sample_shell.env) ∧
    main_tokens ("FOO=bar baz").toList sample_shell.env
      = [("FOO=bar").toList, ("baz").toList] ∧
    trim (chomp ("1A=foo\n").toList) = ("1A=foo").toList ∧
    handle_assignment ("1A=foo").toList sample_shell.env
      = (0, ['1', 'A', NUL, 'f', 'o', 'o'], sample_shell.env) ∧
    main_tokens ("1A=foo").toList sample_shell.env = [("1A").toList] ∧
    main_body (sample_os 555 (some (W_EXITCODE 127 0))) sample_shell ("1A=foo\n").toList
      = Step.next { sample_shell with
          last_status := 127, sys := [Sys.fork [("1A").toList] 555] } := by
  decide

/-! ### C8: assignment, then `echo` of the variable -/

theorem name_char_plain (c : Char) (h : c.isAlpha = true ∨ c.isDigit = true ∨ c = '_') :
    c ≠ ' ' ∧ c ≠ '\t' ∧ c ≠ '\n' ∧ c ≠ '\r' ∧ c ≠ NUL ∧ c ≠ '=' ∧ c ≠ '$' ∧ c ≠ '?' := by
  refine ⟨?_, ?_, ?_, ?_, ?_, ?_, ?_, ?_⟩ <;> (rintro rfl; revert h; decide)

theorem valid_name_plain (name : CStr) (h : valid_name name) :
    ∀ c ∈ name,
      c ≠ ' ' ∧ c ≠ '\t' ∧ c ≠ '\n' ∧ c ≠ '\r' ∧ c ≠ NUL ∧ c ≠ '=' ∧ c ≠ '$' ∧ c ≠ '?' := by
  cases name with
  | nil => exact absurd h (by simp [valid_name])
  | cons c rest =>
    obtain ⟨hc, hr⟩ := h
    intro x hx
    rcases List.mem_cons.mp hx with rfl | hx
    · exact name_char_plain x (hc.elim Or.inl fun e => Or.inr (Or.inr e))
    · exact name_char_plain x (hr x hx)

theorem cstr_id (l : List Char) (h : ∀ c ∈ l, c ≠ NUL) : cstr l = l := by
  unfold cstr
  rw [List.takeWhile_eq_self_iff]
  intro c hc
  simpa using h c hc

theorem chomp_line (l : List Char) (h : ∀ c ∈ l, c ≠ NUL) : chomp (l ++ ['\n']) = l := by
  simp [chomp, cstr_id l h]

theorem trim_id (c : Char) (rest : List Char) (hc : is_trim_space c = false)
    (hlast : ∀ x, rest.getLast? = some x → is_trim_space x = false) :
    trim (c :: rest) = c :: rest := by
  have h1 : (c :: rest).dropWhile is_trim_space = c :: rest := by
    simp [List.dropWhile_cons, hc]
  have h2 : rest.rdropWhile is_trim_space = rest := by
    rw [List.rdropWhile_eq_self_iff]
    intro hne
    have := hlast _ (List.getLast?_eq_getLast rest hne)
    simpa using this
  simp only [trim, h1, h2]

theorem trim_space_of_plain (c : Char)
    (h : c ≠ ' ' ∧ c ≠ '\t' ∧ c ≠ '\n' ∧ c ≠ '\r') : is_trim_space c = false := by
  simp [is_trim_space, h.1, h.2.1, h.2.2.1, h.2.2.2]

theorem strtok_r_word (c : Char) (w rest : List Char)
    (h : ∀ x ∈ c :: w, is_blank x = false) (d : Char) (hd : is_blank d = true) :
    strtok_r (c :: w ++ d :: rest) = some (c :: w, rest) := by
  have hc : is_blank c = false := h c (List.mem_cons_self _ _)
  have hw : ∀ x ∈ c :: w, (!is_blank x) = true := by
    intro x hx; simp [h x hx]
  have e1 : (c :: w ++ d :: rest).dropWhile is_blank = c :: w ++ d :: rest := by
    simp [List.dropWhile_cons, hc]
  have e2 : (c :: w ++ d :: rest).takeWhile (fun x => !is_blank x) = c :: w := by
    rw [List.takeWhile_append_of_pos hw]
    simp [List.takeWhile_cons, hd]
  have e3 : (c :: w ++ d :: rest).dropWhile (fun x => !is_blank x) = d :: rest := by
    rw [List.dropWhile_append_of_pos hw]
    simp [List.dropWhile_cons, hd]
  unfold strtok_r
  rw [e1]
  show some (List.takeWhile _ (c :: w ++ d :: rest), (List.dropWhile _ (c :: w ++ d :: rest)).tail) = _
  rw [e2, e3]
  rfl

theorem strtok_r_last (c : Char) (w : List Char) (h : ∀ x ∈ c :: w, is_blank x = false) :
    strtok_r (c :: w) = some (c :: w, []) := by
  have hc : is_blank c = false := h c (List.mem_cons_self _ _)
  have hw : ∀ x ∈ c :: w, (!is_blank x) = true := by
    intro x hx; simp [h x hx]
  have e1 : (c :: w).dropWhile is_blank = c :: w := by
    simp [List.dropWhile_cons, hc]
  have e2 : (c :: w).takeWhile (fun x => !is_blank x) = c :: w :=
    List.takeWhile_eq_self_iff.mpr hw
  have e3 : (c :: w).dropWhile (fun x => !is_blank x) = [] :=
    List.dropWhile_eq_nil_iff.mpr hw
  unfold strtok_r
  rw [e1]
  show some (List.takeWhile _ (c :: w), (List.dropWhile _ (c :: w)).tail) = _
  rw [e2, e3]
  rfl

theorem tokenize_loop_some (room : Nat) (s tok rest : CStr)
    (h : strtok_r s = some (tok, rest)) :
    tokenize_loop (room + 1) s = tok :: tokenize_loop room rest := by
  simp [tokenize_loop, h]

theorem tokenize_loop_none (room : Nat) (s : CStr) (h : strtok_r s = none) :
    tokenize_loop room s = [] := by
  cases room <;> simp [tokenize_loop, h]

theorem tokenize_echo_ref (name : CStr) (h : ∀ x ∈ name, is_blank x = false) :
    tokenize (("echo $").toList ++ name) = [("echo").toList, '$' :: name] := by
  have e : ("echo $").toList ++ name = 'e' :: ['c', 'h', 'o'] ++ ' ' :: ('$' :: name) := by
    simp
  have h1 : ∀ x ∈ 'e' :: ['c', 'h', 'o'], is_blank x = false := by decide
  have h2 : ∀ x ∈ '$' :: name, is_blank x = false := by
    intro x hx
    rcases List.mem_cons.mp hx with rfl | hx
    · decide
    · exact h x hx
  rw [e]
  show tokenize_loop (253 + 1 + 1) _ = _
  rw [tokenize_loop_some _ _ _ _ (strtok_r_word 'e' ['c', 'h', 'o'] _ h1 ' ' rfl),
    tokenize_loop_some _ _ _ _ (strtok_r_last '$' name h2), tokenize_loop_none _ [] rfl]
  rfl


theorem main_body_assign (os : Os) (s : Shell) (name value : CStr) (hN : valid_name name)
    (hV : ∀ c ∈ value, c ≠ ' ' ∧ c ≠ '\t' ∧ c ≠ '\n' ∧ c ≠ '\r' ∧ c ≠ NUL) :
    main_body os s (name ++ '=' :: value ++ ['\n'])
      = Step.next { s with env := setenv_entry s.env name value } := by
  have hp := valid_name_plain name hN
  have hall : ∀ c ∈ name ++ '=' :: value,
      c ≠ ' ' ∧ c ≠ '\t' ∧ c ≠ '\n' ∧ c ≠ '\r' ∧ c ≠ NUL := by
    intro c hc
    rcases List.mem_append.mp hc with h | h
    · obtain ⟨a, b, c1, d, e, _⟩ := hp c h
      exact ⟨a, b, c1, d, e⟩
    · rcases List.mem_cons.mp h with rfl | h
      · decide
      · exact hV c h
  have hform : assignment_form (name ++ '=' :: value) name value :=
    ⟨rfl, fun m => (hp _ m).2.2.2.2.2.1 rfl, fun c hc => ⟨(hall c hc).1, (hall c hc).2.1⟩, hN⟩
  have hchomp : chomp (name ++ '=' :: value ++ ['\n']) = name ++ '=' :: value := by
    have := chomp_line (name ++ '=' :: value) (fun c hc => (hall c hc).2.2.2.2)
    simpa using this
  have htrim : trim (name ++ '=' :: value) = name ++ '=' :: value := by
    cases name with
    | nil => exact absurd hN (by simp [valid_name])
    | cons c rest =>
      have hc := hall c (by simp)
      refine trim_id c _ (trim_space_of_plain c ⟨hc.1, hc.2.1, hc.2.2.1, hc.2.2.2.1⟩) ?_
      intro x hx
      have hx' : x ∈ rest ++ '=' :: value := List.mem_of_getLast?_eq_some hx
      have := hall x (by simp at hx' ⊢; tauto)
      exact trim_space_of_plain x ⟨this.1, this.2.1, this.2.2.1, this.2.2.2.1⟩
  have hne : name ++ '=' :: value ≠ [] := by simp
  simp only [main_body, hchomp, htrim, hne, handle_assignment_form _ name value s.env hform]
  simp

theorem expand_ref (os : Os) (s : Shell) (name : CStr) (h1 : name ≠ ['?']) (h2 : name ≠ ['$']) :
    expand os s ('$' :: name) = (getenv s.env name).getD [] := by
  simp only [expand, List.cons.injEq, true_and, h1, h2, if_false]
  split
  · next h =>
    have : name = ("SHELL").toList := by simpa using h
    rw [this]
  · rfl

theorem expand_plain (os : Os) (s : Shell) (a : CStr) (h : a.head? ≠ some '$') :
    expand os s a = a := by
  unfold expand
  split
  · next name => simp at h
  · rfl

theorem echo_loop_eq (os : Os) (s : Shell) (args : List CStr) :
    echo_loop os s args = [' '].intercalate (args.map (expand os s)) := by
  induction args with
  | nil => rfl
  | cons a rest ih =>
    cases rest with
    | nil => simp [echo_loop, List.intercalate]
    | cons b rest =>
      simp only [echo_loop, ih]
      simp [List.intercalate, List.intersperse]

theorem main_body_echo (os : Os) (s : Shell) (raw : List Char) (args : List CStr)
    (h : dispatches s raw (("echo").toList :: args)) :
    main_body os s raw = Step.next { s with
      out := s.out ++ ([' '].intercalate (args.map (expand os s)) ++ ['\n']),
      last_status := 0 } := by
  rw [main_body_dispatches os s raw _ args h, ← echo_loop_eq]
  have h1 : ("echo").toList ≠ ("exit").toList := by decide
  have h2 : ("echo").toList ≠ ("cd").toList := by decide
  have h3 : ("echo").toList ≠ ("pwd").toList := by decide
  simp only [dispatch, if_neg h1, if_neg h2, if_neg h3, if_true, builtin_echo, Shell.write_out]

theorem dispatches_echo_ref (s : Shell) (name : CStr) (hN : valid_name name) :
    dispatches s (("echo $").toList ++ name ++ ['\n']) [("echo").toList, '$' :: name] := by
  have hp := valid_name_plain name hN
  have hne := valid_name_ne_nil name hN
  have hlit : ∀ c ∈ ("echo $").toList, c ≠ NUL ∧ c ≠ '=' := by decide
  have hall : ∀ c ∈ ("echo $").toList ++ name, c ≠ NUL ∧ c ≠ '=' := by
    intro c hc
    rcases List.mem_append.mp hc with h | h
    · exact hlit c h
    · exact ⟨(hp c h).2.2.2.2.1, (hp c h).2.2.2.2.2.1⟩
  have hchomp : chomp (("echo $").toList ++ name ++ ['\n']) = ("echo $").toList ++ name :=
    chomp_line _ (fun c hc => (hall c hc).1)
  have htrim : trim (("echo $").toList ++ name) = ("echo $").toList ++ name := by
    have e : ("echo $").toList ++ name = 'e' :: (("cho $").toList ++ name) := by simp
    rw [e]
    refine trim_id 'e' _ (by decide) ?_
    intro x hx
    obtain ⟨y, hy⟩ : ∃ y, name.getLast? = some y :=
      ⟨_, List.getLast?_eq_getLast name hne⟩
    rw [List.getLast?_append, hy] at hx
    have hxy : y = x := by simpa using hx
    subst hxy
    have := hp y (List.mem_of_getLast?_eq_some hy)
    exact trim_space_of_plain y ⟨this.1, this.2.1, this.2.2.1, this.2.2.2.1⟩
  have hasg : handle_assignment (("echo $").toList ++ name) s.env
      = (0, ("echo $").toList ++ name, s.env) :=
    handle_assignment_no_eq _ _ (fun m => (hall _ m).2 rfl)
  have hblank : ∀ x ∈ name, is_blank x = false := by
    intro x hx
    simp [is_blank, (hp x hx).1, (hp x hx).2.1]
  refine ⟨?_, ?_⟩
  · rw [hchomp, htrim, hasg]
  · rw [hchomp, htrim]
    simp only [main_tokens, hasg]
    rw [cstr_id _ (fun c hc => (hall c hc).1)]
    exact tokenize_echo_ref name hblank

theorem valid_name_head (name : CStr) (hN : valid_name name) :
    name ≠ ['?'] ∧ name ≠ ['$'] := by
  have hp := valid_name_plain name hN
  constructor
  · rintro rfl
    exact (hp '?' (by simp)).2.2.2.2.2.2.2 rfl
  · rintro rfl
    exact (hp '$' (by simp)).2.2.2.2.2.2.1 rfl

theorem print_prompt_env (s : Shell) : (print_prompt s).env = s.env := by
  unfold print_prompt
  split <;> rfl

/-- C8: for every variable name `name` (a letter or underscore, then letters, digits and
underscores) and every value `value` free of space, tab, newline, carriage return and NUL,
the input line `name=value` prints nothing and the line `echo $name` read at the next prompt
prints exactly `value` followed by a newline. -/
theorem assign_then_echo (os1 os2 : Os) (s : Shell) (name value : CStr) (hN : valid_name name)
    (hV : ∀ c ∈ value, c ≠ ' ' ∧ c ≠ '\t' ∧ c ≠ '\n' ∧ c ≠ '\r' ∧ c ≠ NUL) :
    ∃ s1, main_body os1 s (name ++ '=' :: value ++ ['\n']) = Step.next s1 ∧ s1.out = s.out ∧
      ∃ s2, main_body os2 (print_prompt s1) (("echo $").toList ++ name ++ ['\n'])
          = Step.next s2 ∧
        s2.out = (print_prompt s1).out ++ (value ++ ['\n']) := by
  refine ⟨_, main_body_assign os1 s name value hN hV, rfl, _,
    main_body_echo os2 _ _ _ (dispatches_echo_ref _ name hN), ?_⟩
  have hh := valid_name_head name hN
  simp [expand_ref _ _ name hh.1 hh.2, print_prompt_env,
    getenv_setenv_entry_self _ name value (valid_name_ne_nil name hN), List.intercalate]

/-- C8 at `FOO=bar` followed by `echo $FOO`. -/
theorem assign_then_echo_witness :
    ∃ s1, main_body (sample_os 0 none) sample_shell (("FOO").toList ++ '=' :: ("bar").toList
        ++ ['\n']) = Step.next s1 ∧ s1.out = sample_shell.out ∧
      ∃ s2, main_body (sample_os 0 none) (print_prompt s1)
          (("echo $").toList ++ ("FOO").toList ++ ['\n']) = Step.next s2 ∧
        s2.out = (print_prompt s1).out ++ (("bar").toList ++ ['\n']) :=
  assign_then_echo (sample_os 0 none) (sample_os 0 none) sample_shell ("FOO").toList
    ("bar").toList (by simp [valid_name]) (by decide)

/-! ### C9: the `echo` builtin -/

theorem dispatches_echo_hi (s : Shell) :
    dispatches s ("echo hi $$\n").toList [("echo").toList, ("hi").toList, ['$', '$']] := by
  have e : trim (chomp ("echo hi $$\n").toList) = ("echo hi $$").toList := by decide
  have ha : handle_assignment ("echo hi $$").toList s.env
      = (0, ("echo hi $$").toList, s.env) := by rfl
  refine ⟨?_, ?_⟩
  · rw [e, ha]
  · rw [e]
    simp only [main_tokens, ha]
    decide

/-- C9, refuted as stated: after the line `X=b=c` the environment defines `HOME` and `X` and
no variable called `X=b`, yet the line `echo $X=b` read at the next prompt prints `c`, not an
empty expansion: `getenv` finds the entry `X=b=c`, which begins with `X=b=`. -/
theorem echo_reference_counterexample :
    (main_body (sample_os 0 none) sample_shell ("X=b=c\n").toList).state.env
      = [("HOME=/root").toList, ("X=b=c").toList] ∧
    env_value [("HOME=/root").toList, ("X=b=c").toList] ("X").toList = some ("b=c").toList ∧
    env_value [("HOME=/root").toList, ("X=b=c").toList] ("X=b").toList = none ∧
    main_tokens (trim (chomp ("echo $X=b\n").toList))
        [("HOME=/root").toList, ("X=b=c").toList]
      = [("echo").toList, ("$X=b").toList] ∧
    (main_body (sample_os 0 none)
        (print_prompt (main_body (sample_os 0 none) sample_shell ("X=b=c\n").toList).state)
        ("echo $X=b\n").toList).state.out
      = ("msh > c\n").toList := by
  decide

/-- C9 as amended: for every input line that `main` tokenizes to `echo` followed by `args`,
the loop body goes straight on to the next prompt having appended to standard output the
expansions of `args` joined by single spaces and one newline, with `last_status = 0` and
nothing else changed (no `fork`, no other system call, nothing on standard error).  The
expansion of `$$` is `getpid()` in decimal, of `$?` the `last_status` before the command in
decimal, of any other `$NAME` what `getenv(NAME)` returns (empty for `NULL`, as for the bare
`$`), which for a `NAME` free of `=` is the value of the variable `NAME` (empty when unset),
and of a token not starting with `$` the token itself.  The line `echo hi $$` prints `hi`, a
space, the process id and a newline. -/
theorem echo_prints_expansions (os : Os) (s : Shell) (raw : List Char) (args : List CStr)
    (h : dispatches s raw (("echo").toList :: args)) :
    main_body os s raw = Step.next { s with
      out := s.out ++ ([' '].intercalate (args.map (expand os s)) ++ ['\n']),
      last_status := 0 } ∧
    expand os s ['$', '$'] = fmt_d os.getpid ∧
    expand os s ['$', '?'] = fmt_d s.last_status ∧
    (∀ name, name ≠ ['?'] → name ≠ ['$'] →
      expand os s ('$' :: name) = (getenv s.env name).getD []) ∧
    (∀ name, name ≠ [] → '=' ∉ name → getenv s.env name = env_value s.env name) ∧
    expand os s ['$'] = [] ∧
    (∀ a, a.head? ≠ some '$' → expand os s a = a) ∧
    main_body os s ("echo hi $$\n").toList = Step.next { s with
      out := s.out ++ (("hi ").toList ++ fmt_d os.getpid ++ ['\n']), last_status := 0 } := by
  refine ⟨main_body_echo os s raw args h, by simp [expand], by simp [expand],
    fun name h1 h2 => expand_ref os s name h1 h2,
    fun name h0 hn => getenv_eq_env_value s.env name h0 hn, ?_,
    fun a ha => expand_plain os s a ha, ?_⟩
  · rw [expand_ref os s [] (by decide) (by decide)]
    rfl
  · rw [main_body_echo os s _ _ (dispatches_echo_hi s)]
    simp [expand, List.intercalate]

/-- C9 as amended, at the line `echo a $? $HOME` in the sample interpreter. -/
theorem echo_prints_expansions_witness :
    main_body (sample_os 0 none) sample_shell ("echo a $? $HOME\n").toList
      = Step.next { sample_shell with
          out := sample_shell.out ++ ([' '].intercalate
            (([("a").toList, ("$?").toList, ("$HOME").toList]).map
              (expand (sample_os 0 none) sample_shell)) ++ ['\n']),
          last_status := 0 } ∧
    expand (sample_os 0 none) sample_shell ['$', '$'] = fmt_d (sample_os 0 none).getpid ∧
    expand (sample_os 0 none) sample_shell ['$', '?'] = fmt_d sample_shell.last_status ∧
    (∀ name, name ≠ ['?'] → name ≠ ['$'] →
      expand (sample_os 0 none) sample_shell ('$' :: name)
        = (getenv sample_shell.env name).getD []) ∧
    (∀ name, name ≠ [] → '=' ∉ name →
      getenv sample_shell.env name = env_value sample_shell.env name) ∧
    expand (sample_os 0 none) sample_shell ['$'] = [] ∧
    (∀ a, a.head? ≠ some '$' → expand (sample_os 0 none) sample_shell a = a) ∧
    main_body (sample_os 0 none) sample_shell ("echo hi $$\n").toList
      = Step.next { sample_shell with
          out := sample_shell.out
            ++ (("hi ").toList ++ fmt_d (sample_os 0 none).getpid ++ ['\n']),
          last_status := 0 } :=
  echo_prints_expansions (sample_os 0 none) sample_shell ("echo a $? $HOME\n").toList
    [("a").toList, ("$?").toList, ("$HOME").toList] ⟨by decide, by decide⟩

/-! ### C10: `cd -` with no previous directory -/

theorem dispatches_cd_dash (s : Shell) :
    dispatches s ("cd -\n").toList [("cd").toList, ['-']] := by
  have e : trim (chomp ("cd -\n").toList) = ("cd -").toList := by decide
  have ha : handle_assignment ("cd -").toList s.env = (0, ("cd -").toList, s.env) := by rfl
  refine ⟨?_, ?_⟩
  · rw [e, ha]
  · rw [e]
    simp only [main_tokens, ha]
    decide

theorem main_body_cd_dash (os : Os) (s : Shell) (raw : List Char) (more : List CStr)
    (h : dispatches s raw (("cd").toList :: ['-'] :: more))
    (hold : getenv s.env ("OLDPWD").toList = none) :
    main_body os s raw = Step.next { s with
      err := s.err ++ ("cd: OLDPWD not set\n").toList, last_status := 1 } := by
  have h1 : ("cd").toList ≠ ("exit").toList := by decide
  rw [main_body_dispatches os s raw _ _ h]
  simp only [dispatch, if_neg h1, if_true, builtin_cd, hold, Shell.write_err]

/-- C10: when the input line `cd -` (or any line that `main` tokenizes to `cd`, `-` and
more) is dispatched while `OLDPWD` is not in the environment, the loop body writes
`cd: OLDPWD not set` to standard error, sets `last_status` to 1, which is not 0, and changes
nothing else: the working directory, the environment (`PWD` and `OLDPWD` included) and
standard output are as before and `chdir` is not called. -/
theorem cd_dash_without_oldpwd (os : Os) (s : Shell)
    (hold : getenv s.env ("OLDPWD").toList = none) :
    main_body os s ("cd -\n").toList = Step.next { s with
      err := s.err ++ ("cd: OLDPWD not set\n").toList, last_status := 1 } ∧
    (main_body os s ("cd -\n").toList).state.last_status ≠ 0 ∧
    (main_body os s ("cd -\n").toList).state.cwd = s.cwd ∧
    (main_body os s ("cd -\n").toList).state.env = s.env ∧
    (main_body os s ("cd -\n").toList).state.sys = s.sys ∧
    ∀ raw more, dispatches s raw (("cd").toList :: ['-'] :: more) →
      main_body os s raw = Step.next { s with
        err := s.err ++ ("cd: OLDPWD not set\n").toList, last_status := 1 } := by
  rw [main_body_cd_dash os s _ [] (dispatches_cd_dash s) hold]
  exact ⟨rfl, by simp [Step.state], rfl, rfl, rfl,
    fun raw more h => main_body_cd_dash os s raw more h hold⟩

/-- C10 in an interpreter started where `getcwd` fails and `OLDPWD` was not inherited. -/
theorem cd_dash_without_oldpwd_witness :
    getenv sample_shell_lost.env ("OLDPWD").toList = none ∧
    main_body sample_os_lost sample_shell_lost ("cd -\n").toList
      = Step.next { sample_shell_lost with
          err := sample_shell_lost.err ++ ("cd: OLDPWD not set\n").toList,
          last_status := 1 } ∧
    (main_body sample_os_lost sample_shell_lost ("cd -\n").toList).state.last_status ≠ 0 ∧
    (main_body sample_os_lost sample_shell_lost ("cd -\n").toList).state.cwd
      = sample_shell_lost.cwd :=
  have h := cd_dash_without_oldpwd sample_os_lost sample_shell_lost (by decide)
  ⟨by decide, h.1, h.2.1, h.2.2.1⟩

/-- Whenever `getcwd` succeeds at start-up, `main` enters its loop with `OLDPWD` recorded:
the premise of C10 then needs `getcwd` to have failed with no `OLDPWD` inherited. -/
theorem main_init_records_oldpwd (os : Os) (exe : CStr) (env : Env) (cwd dir : CStr)
    (h : os.getcwd cwd = some dir) :
    getenv (main_init os exe env cwd).env ("OLDPWD").toList ≠ none := by
  have key : ∀ e : Env,
      getenv (if getenv e ("OLDPWD").toList = none then setenv e ("OLDPWD").toList dir else e)
        ("OLDPWD").toList ≠ none := by
    intro e
    by_cases hc : getenv e ("OLDPWD").toList = none
    · rw [if_pos hc, setenv_valid _ _ _ (by decide) (by decide),
        getenv_setenv_entry_self _ _ _ (by decide)]
      simp
    · rw [if_neg hc]
      exact hc
  simp only [main_init, h]
  exact key _

end Msh
